import Mathlib

/-!
Verification of the streaming/transport core of `gcli.c` (grndis/gcli).

The development shallowly embeds the data model and the algorithms of the
source file `src/gcli.c`: the chunk reassemblers (`write_memory_callback`,
`write_free_memory_callback`), the two stream decoders (`process_line`,
`process_free_line`), the retrying transports (`send_api_request`,
`send_free_api_request`), the history store (`add_content_to_history` and
the rollback in `generate_session`), the payload builder
(`build_request_json`) and the history loader (`load_history_from_file`).
C byte strings are modelled as `List Char` (for stream buffers) or `String`
(for stored texts); nullable C strings are `Option String`; machine sizes
are `Nat`.  The vendored cJSON library is not part of `src/`, so its value
trees and parser are modelled separately (see `JVal`, `parse_json`).
-/

namespace Gcli

/-! ### Characters that are awkward to write literally -/

/-- The single-quote character, byte 39. -/
def cApos : Char := Char.ofNat 39

/-- The double-quote character, byte 34. -/
def cQuote : Char := Char.ofNat 34

/-- The backslash character, byte 92. -/
def cBackslash : Char := Char.ofNat 92

/-- The opening curly brace, byte 123. -/
def cLBrace : Char := Char.ofNat 123

/-- The closing curly brace, byte 125. -/
def cRBrace : Char := Char.ofNat 125

/-! ### Chunk reassembly (write_memory_callback, gcli.c lines 235-272)

The callback appends the incoming chunk to the buffer, then repeatedly
cuts the buffer at the first newline, handing each complete line to the
decoder and keeping the remainder.  `splitLines` computes, for a buffer
content, the list of complete lines and the trailing partial line. -/

/-- Splits a byte buffer into its complete newline-terminated lines and the
trailing partial line, exactly as the `strchr`/`memmove` loop of
`write_memory_callback` does: the first component lists the lines (without
their newline), the second is the remainder kept in the buffer. -/
def splitLines : List Char → List (List Char) × List Char
  | [] => ([], [])
  | c :: rest =>
    if c = '\n' then
      ([] :: (splitLines rest).1, (splitLines rest).2)
    else
      match (splitLines rest).1 with
      | [] => ([], c :: (splitLines rest).2)
      | l :: ls => ((c :: l) :: ls, (splitLines rest).2)

theorem splitLines_nil : splitLines [] = ([], []) := rfl

theorem splitLines_nl (rest : List Char) :
    splitLines ('\n' :: rest) = ([] :: (splitLines rest).1, (splitLines rest).2) := by
  simp [splitLines]

theorem splitLines_chr {c : Char} (hc : c ≠ '\n') (rest : List Char) :
    splitLines (c :: rest) =
      (match (splitLines rest).1 with
        | [] => ([], c :: (splitLines rest).2)
        | l :: ls => ((c :: l) :: ls, (splitLines rest).2)) := by
  simp [splitLines, hc]

/-- One stream: feed each chunk in order into the reassembler of
`write_memory_callback`; returns all complete lines handed to the decoder
(in order) and the final buffer contents. -/
def feedAll : List (List Char) → List Char → List (List Char) × List Char
  | [], buf => ([], buf)
  | c :: cs, buf =>
    ((splitLines (buf ++ c)).1 ++ (feedAll cs (splitLines (buf ++ c)).2).1,
      (feedAll cs (splitLines (buf ++ c)).2).2)

/-- The Protocol A reassembler applied to a whole stream of chunks,
starting (as `send_api_request` does) from an empty buffer. -/
def write_memory_stream (chunks : List (List Char)) : List (List Char) × List Char :=
  feedAll chunks []

theorem splitLines_append (a b : List Char) :
    splitLines (a ++ b) =
      ((splitLines a).1 ++ (splitLines ((splitLines a).2 ++ b)).1,
        (splitLines ((splitLines a).2 ++ b)).2) := by
  induction a with
  | nil => simp [splitLines_nil]
  | cons c a ih =>
    by_cases hc : c = '\n'
    · subst hc
      rw [List.cons_append, splitLines_nl, splitLines_nl, ih]
      simp
    · rw [List.cons_append, splitLines_chr hc, splitLines_chr hc, ih]
      rcases hls : (splitLines a).1 with _ | ⟨l, ls⟩
      · simp only [List.nil_append]
        rw [List.cons_append, splitLines_chr hc]
      · simp

/-- The trailing remainder kept by the reassembler never contains a newline. -/
theorem splitLines_snd_no_nl (s : List Char) : '\n' ∉ (splitLines s).2 := by
  induction s with
  | nil => simp [splitLines_nil]
  | cons c rest ih =>
    by_cases hc : c = '\n'
    · subst hc; rw [splitLines_nl]; exact ih
    · rw [splitLines_chr hc]
      rcases (splitLines rest).1 with _ | ⟨l, ls⟩
      · simp only []
        intro h
        rcases List.mem_cons.mp h with h | h
        · exact hc h.symm
        · exact ih h
      · exact ih

/-- A buffer without a newline yields no line and is kept whole. -/
theorem splitLines_of_no_nl (s : List Char) (h : '\n' ∉ s) :
    splitLines s = ([], s) := by
  induction s with
  | nil => rfl
  | cons c rest ih =>
    have hc : c ≠ '\n' := fun hh => h (hh ▸ List.mem_cons_self c rest)
    have hrest : '\n' ∉ rest := fun hh => h (List.mem_cons_of_mem c hh)
    rw [splitLines_chr hc, ih hrest]

theorem feedAll_eq_splitLines (cs : List (List Char)) (buf : List Char)
    (hbuf : '\n' ∉ buf) :
    feedAll cs buf = splitLines (buf ++ cs.flatten) := by
  induction cs generalizing buf with
  | nil => simp [feedAll, splitLines_of_no_nl buf hbuf]
  | cons c cs ih =>
    rw [List.flatten_cons, ← List.append_assoc, splitLines_append (buf ++ c) cs.flatten]
    simp only [feedAll]
    rw [ih (splitLines (buf ++ c)).2 (splitLines_snd_no_nl (buf ++ c))]

/-- Claim C1 [amended, Protocol A half]: the lines of a chunked stream do
not depend on the chunking. -/
theorem write_memory_stream_split_invariant (chunks : List (List Char)) :
    write_memory_stream chunks = write_memory_stream [chunks.flatten] := by
  have h1 := feedAll_eq_splitLines chunks [] (by simp)
  have h2 := feedAll_eq_splitLines [chunks.flatten] [] (by simp)
  simp only [write_memory_stream, h1, h2, List.flatten, List.append_nil, List.nil_append]

/-! ### The Protocol B reassembler (write_free_memory_callback, lines 1360-1414)

Same line splitting, with two differences: a chunk that arrives while the
buffer is empty, is longer than 4 bytes and begins with the anti-hijacking
marker has those 4 bytes stripped, and only lines beginning with a bracket
are handed to `process_free_line`. -/

/-- The 4-byte anti-JSON-hijacking marker of the free API stream. -/
def magicBytes : List Char := [')', ']', cRBrace, cApos]

/-- The strip condition of `write_free_memory_callback`:
`realsize > 4 && strncmp(current_contents, marker, 4) == 0`. -/
def startsMagic (c : List Char) : Bool :=
  decide (4 < c.length) && decide (c.take 4 = magicBytes)

/-- One chunk as seen after the conditional prefix strip (`mem->size == 0`
is `buf.isEmpty`). -/
def stripHijack (buf c : List Char) : List Char :=
  if buf.isEmpty && startsMagic c then c.drop 4 else c

/-- The line filter of `write_free_memory_callback`: only lines whose
first byte is a bracket reach `process_free_line`. -/
def startsWithBracket : List Char → Bool
  | '[' :: _ => true
  | _ => false

/-- Feed chunks through the free-API reassembler; returns the lines handed
to `process_free_line` and the final buffer. -/
def feedAllFree : List (List Char) → List Char → List (List Char) × List Char
  | [], buf => ([], buf)
  | c :: cs, buf =>
    ((splitLines (buf ++ stripHijack buf c)).1.filter startsWithBracket ++
        (feedAllFree cs (splitLines (buf ++ stripHijack buf c)).2).1,
      (feedAllFree cs (splitLines (buf ++ stripHijack buf c)).2).2)

/-- The Protocol B reassembler applied to a whole stream of chunks,
starting (as `send_free_api_request` does) from an empty buffer. -/
def write_free_memory_stream (chunks : List (List Char)) : List (List Char) × List Char :=
  feedAllFree chunks []

/-- A stream is safe for Protocol B split-invariance when the hijacking
marker appears neither in its first four bytes nor right after any newline. -/
def noMagicAfterNL : List Char → Bool
  | [] => true
  | c :: rest =>
    (if c = '\n' then !(decide (rest.take 4 = magicBytes)) else true) && noMagicAfterNL rest

/-- Safety condition on a whole stream for Protocol B split-invariance. -/
def freeStreamSafe (s : List Char) : Bool :=
  !(decide (s.take 4 = magicBytes)) && noMagicAfterNL s

theorem startsMagic_append {c : List Char} (r : List Char) (h : startsMagic c = true) :
    startsMagic (c ++ r) = true := by
  simp only [startsMagic, Bool.and_eq_true, decide_eq_true_eq] at h ⊢
  obtain ⟨h1, h2⟩ := h
  constructor
  · simp only [List.length_append]; omega
  · rw [List.take_append_of_le_length (by omega)]; exact h2

theorem noMagicAfterNL_tail {c : Char} {t : List Char}
    (h : noMagicAfterNL (c :: t) = true) : noMagicAfterNL t = true := by
  simp only [noMagicAfterNL, Bool.and_eq_true] at h
  exact h.2

theorem noMagicAfterNL_suffix (u t : List Char)
    (h : noMagicAfterNL (u ++ t) = true) : noMagicAfterNL t = true := by
  induction u with
  | nil => exact h
  | cons c u ih => exact ih (noMagicAfterNL_tail h)

theorem noMagicAfterNL_after_nl (u t : List Char)
    (h : noMagicAfterNL (u ++ '\n' :: t) = true) :
    t.take 4 ≠ magicBytes ∧ noMagicAfterNL t = true := by
  have h2 := noMagicAfterNL_suffix u ('\n' :: t) h
  simp only [noMagicAfterNL, if_pos rfl, if_true, eq_self_iff_true, Bool.and_eq_true,
    Bool.not_eq_true', decide_eq_false_iff_not] at h2
  exact h2

theorem splitLines_fst_nil (s : List Char) (h : (splitLines s).1 = []) :
    (splitLines s).2 = s := by
  induction s with
  | nil => rfl
  | cons c rest ih =>
    by_cases hc : c = '\n'
    · subst hc; rw [splitLines_nl] at h; cases h
    · rw [splitLines_chr hc] at h ⊢
      rcases hf : (splitLines rest).1 with _ | ⟨l, ls⟩
      · simp only [hf] at h ⊢
        rw [ih hf]
      · simp [hf] at h

theorem splitLines_decomp (s : List Char) :
    ((splitLines s).1 = [] ∧ (splitLines s).2 = s) ∨
      ∃ u, s = u ++ '\n' :: (splitLines s).2 := by
  induction s with
  | nil => exact Or.inl ⟨rfl, rfl⟩
  | cons c rest ih =>
    by_cases hc : c = '\n'
    · subst hc
      refine Or.inr ?_
      have hsnd : (splitLines ('\n' :: rest)).2 = (splitLines rest).2 := by
        rw [splitLines_nl]
      rw [hsnd]
      rcases ih with ⟨h1, h2⟩ | ⟨u, hu⟩
      · exact ⟨[], by rw [h2]; rfl⟩
      · exact ⟨'\n' :: u, by rw [List.cons_append, ← hu]⟩
    · rcases hf : (splitLines rest).1 with _ | ⟨l, ls⟩
      · refine Or.inl ⟨?_, ?_⟩
        · rw [splitLines_chr hc, hf]
        · rw [splitLines_chr hc, hf]
          simp only []
          rw [splitLines_fst_nil rest hf]
      · have hsnd : (splitLines (c :: rest)).2 = (splitLines rest).2 := by
          rw [splitLines_chr hc, hf]
        refine Or.inr ?_
        rw [hsnd]
        rcases ih with ⟨h1, h2⟩ | ⟨u, hu⟩
        · rw [hf] at h1; cases h1
        · exact ⟨c :: u, by rw [List.cons_append, ← hu]⟩

/-- Under the safety condition, the conditional strip never fires, and the
free reassembler yields exactly the bracket lines of the whole stream. -/
theorem feedAllFree_safe (cs : List (List Char)) (buf : List Char)
    (hb : '\n' ∉ buf)
    (hnl : noMagicAfterNL (buf ++ cs.flatten) = true)
    (hstart : buf = [] → (cs.flatten.take 4 ≠ magicBytes)) :
    feedAllFree cs buf =
      ((splitLines (buf ++ cs.flatten)).1.filter startsWithBracket,
        (splitLines (buf ++ cs.flatten)).2) := by
  induction cs generalizing buf with
  | nil => simp [feedAllFree, splitLines_of_no_nl buf hb]
  | cons c cs ih =>
    have hflat : (c :: cs).flatten = c ++ cs.flatten := by simp
    have hstrip : stripHijack buf c = c := by
      unfold stripHijack
      rcases hbuf : buf.isEmpty with _ | _
      · simp [hbuf]
      · have hbe : buf = [] := List.isEmpty_iff.mp hbuf
        rcases hm : startsMagic c with _ | _
        · simp [hbuf, hm]
        · exfalso
          have := startsMagic_append cs.flatten hm
          simp only [startsMagic, Bool.and_eq_true, decide_eq_true_eq] at this
          exact (hstart hbe) (by rw [← hflat] at this; exact this.2)
    simp only [feedAllFree, hstrip]
    have hsnd := splitLines_snd_no_nl (buf ++ c)
    have hdecomp := splitLines_decomp (buf ++ c)
    have hrest : noMagicAfterNL ((splitLines (buf ++ c)).2 ++ cs.flatten) = true ∧
        ((splitLines (buf ++ c)).2 = [] → cs.flatten.take 4 ≠ magicBytes) := by
      rcases hdecomp with ⟨h1, h2⟩ | ⟨u, hu⟩
      · constructor
        · rw [h2, List.append_assoc, ← hflat]
          exact hnl
        · intro hz
          rw [h2] at hz
          have hb0 : buf = [] := by
            rcases buf with _ | ⟨x, xs⟩
            · rfl
            · simp at hz
          have hc0 : c = [] := by
            rcases hz0 : c with _ | ⟨y, ys⟩
            · rfl
            · rw [hb0, hz0] at hz; simp at hz
          have hh := hstart hb0
          rw [hflat, hc0, List.nil_append] at hh
          exact hh
      · generalize hr : (splitLines (buf ++ c)).2 = r at hu ⊢
        have hs : buf ++ (c :: cs).flatten = u ++ '\n' :: (r ++ cs.flatten) := by
          rw [hflat, ← List.append_assoc, hu, List.append_assoc, List.cons_append]
        rw [hs] at hnl
        have hnl2 := noMagicAfterNL_after_nl _ _ hnl
        constructor
        · exact hnl2.2
        · intro hz
          rw [hz, List.nil_append] at hnl2
          exact hnl2.1
    rw [ih (splitLines (buf ++ c)).2 hsnd hrest.1 hrest.2]
    rw [hflat, ← List.append_assoc, splitLines_append (buf ++ c) cs.flatten]
    simp [List.filter_append]

/-- Claim C1, counterexample.  Splitting the very stream the free API sends
(it opens with the 4-byte anti-hijacking marker) so that the first chunk
holds only 2 of the marker bytes defeats the strip condition
`mem->size == 0 && realsize > 4` of `write_free_memory_callback`: fed whole,
the line `[a]` reaches the decoder, while fed in two chunks no line does.
This refutes the claim that split-invariance "holds for both" reassemblers. -/
theorem claim_C1_counterexample :
    write_free_memory_stream [[')', ']'], [cRBrace, cApos, '[', 'a', ']', '\n']] ≠
      write_free_memory_stream [[')', ']', cRBrace, cApos, '[', 'a', ']', '\n']] := by
  decide

/-- Claim C1, amended.  For every byte stream and every chunking of it, the
Protocol A reassembler (`write_memory_callback`) hands the decoder the same
line sequence, with the same trailing partial line, as when the stream is
fed whole.  The same holds for the Protocol B reassembler
(`write_free_memory_callback`) provided the stream does not begin with the
4-byte marker and the marker never directly follows a newline; without this
proviso the conditional prefix strip depends on the chunk boundaries. -/
theorem claim_C1_amended :
    (∀ chunks : List (List Char),
        write_memory_stream chunks = write_memory_stream [chunks.flatten]) ∧
    (∀ chunks : List (List Char),
        freeStreamSafe chunks.flatten = true →
        write_free_memory_stream chunks = write_free_memory_stream [chunks.flatten]) := by
  refine ⟨write_memory_stream_split_invariant, ?_⟩
  intro chunks hsafe
  simp only [freeStreamSafe, Bool.and_eq_true, Bool.not_eq_true',
    decide_eq_false_iff_not] at hsafe
  have e : ([chunks.flatten] : List (List Char)).flatten = chunks.flatten := by simp
  have h1 := feedAllFree_safe chunks [] (by simp) (by simpa using hsafe.2)
    (fun _ => hsafe.1)
  have h2 := feedAllFree_safe [chunks.flatten] [] (by simp)
    (by rw [e]; simpa using hsafe.2) (fun _ => by rw [e]; exact hsafe.1)
  unfold write_free_memory_stream
  rw [h1, h2, e]

/-- Claim C1, witness: a concrete safe stream split in the middle of a line
is reassembled exactly as when fed whole. -/
theorem claim_C1_witness :
    freeStreamSafe ['[', 'a', ']', '\n', '[', 'b', ']'] = true ∧
      write_free_memory_stream [['[', 'a'], [']', '\n', '[', 'b', ']']] =
        write_free_memory_stream [['[', 'a', ']', '\n', '[', 'b', ']']] :=
  ⟨by decide, claim_C1_amended.2 [['[', 'a'], [']', '\n', '[', 'b', ']']] (by decide)⟩

/-! ### JSON values and parsing

`gcli.c` manipulates JSON through the vendored cJSON library (`cJSON.c`),
which is part of the program build but not present under `src/`.  Its
value trees and its parser are therefore modelled here. -/

/-- Modelled from the spec: the cJSON tree of JSON values ("the remainder of
the line is parsed as a JSON object").  Numbers keep only their integer
part; no claim inspects a numeric value. -/
inductive JVal where
  | null
  | bool (b : Bool)
  | num (n : Int)
  | str (s : String)
  | arr (xs : List JVal)
  | obj (fields : List (String × JVal))

/-- Field lookup in the field list of an object, first match wins. -/
def lookupField : List (String × JVal) → String → Option JVal
  | [], _ => none
  | (k, v) :: rest, key => if k = key then some v else lookupField rest key

/-- Modelled from the spec: `cJSON_GetObjectItem` — fetch a field of an
object by name; `NULL` (here `none`) on a non-object or a missing key.
(cJSON compares names case-insensitively; every lookup in `gcli.c` uses the
exact spelling produced by the serializer, so exact matching is faithful.) -/
def getObjectItem : JVal → String → Option JVal
  | JVal.obj fields, key => lookupField fields key
  | _, _ => none

/-- Modelled from the spec: `cJSON_GetArrayItem` — fetch the i-th child of
an array (for an object, the i-th field value, as cJSON walks the same
child chain); `NULL` (`none`) when out of range or on a leaf. -/
def getArrayItem : JVal → Nat → Option JVal
  | JVal.arr xs, i => xs[i]?
  | JVal.obj fields, i => (fields[i]?).map Prod.snd
  | _, _ => none

/-- Modelled from the spec: `cJSON_IsArray` (false on `NULL` is handled at
each call site). -/
def isArray : JVal → Bool
  | JVal.arr _ => true
  | _ => false

/-- Whitespace skipping of the JSON parser. -/
def skipWs : List Char → List Char
  | [] => []
  | c :: rest =>
    if c = ' ' ∨ c = '\t' ∨ c = '\n' ∨ c = '\r' then skipWs rest else c :: rest

/-- JSON string escapes understood by the model (cJSON additionally
understands `\uXXXX`, which no claim exercises; it is modelled as a parse
failure). -/
def escChar (c : Char) : Option Char :=
  if c = cQuote then some cQuote
  else if c = cBackslash then some cBackslash
  else if c = '/' then some '/'
  else if c = 'b' then some (Char.ofNat 8)
  else if c = 'f' then some (Char.ofNat 12)
  else if c = 'n' then some '\n'
  else if c = 'r' then some '\r'
  else if c = 't' then some '\t'
  else none

/-- Parse the body of a JSON string (the opening quote already consumed),
returning the decoded characters and the input after the closing quote. -/
def parseStrChars : List Char → Option (List Char × List Char)
  | [] => none
  | c :: rest =>
    if c = cQuote then some ([], rest)
    else if c = cBackslash then
      match rest with
      | [] => none
      | e :: rest2 =>
        match escChar e, parseStrChars rest2 with
        | some ec, some (s, r) => some (ec :: s, r)
        | _, _ => none
    else
      match parseStrChars rest with
      | some (s, r) => some (c :: s, r)
      | none => none

/-- Longest digit run at the head of the input. -/
def takeDigits : List Char → List Char × List Char
  | [] => ([], [])
  | c :: rest =>
    if '0' ≤ c ∧ c ≤ '9' then
      (c :: (takeDigits rest).1, (takeDigits rest).2)
    else ([], c :: rest)

/-- Skip a fractional part and an exponent, if present (their value is
discarded by the model, see `JVal.num`). -/
def skipExpTail (r : List Char) : List Char :=
  match r with
  | '+' :: r2 => (takeDigits r2).2
  | '-' :: r2 => (takeDigits r2).2
  | _ => (takeDigits r).2

/-- Skip a fractional part and exponent after the integer digits. -/
def skipFrac (s : List Char) : List Char :=
  let s1 := match s with
    | '.' :: r => (takeDigits r).2
    | _ => s
  match s1 with
  | 'e' :: r => skipExpTail r
  | 'E' :: r => skipExpTail r
  | _ => s1

/-- Parse a JSON number, keeping its integer part. -/
def parseNumber (s : List Char) : Option (Int × List Char) :=
  match s with
  | '-' :: r =>
    match takeDigits r with
    | ([], _) => none
    | (ds, r2) =>
      some (-(ds.foldl (fun a c => a * 10 + (c.toNat - 48)) 0 : Nat), skipFrac r2)
  | _ =>
    match takeDigits s with
    | ([], _) => none
    | (ds, r2) =>
      some ((ds.foldl (fun a c => a * 10 + (c.toNat - 48)) 0 : Nat), skipFrac r2)

/-- Parser modes: a single value, the elements after `[`, or the fields
after the opening brace. -/
inductive PMode where
  | value
  | elems
  | fields

/-- Parser results, one per mode. -/
inductive PRes where
  | value (v : JVal) (rest : List Char)
  | elems (vs : List JVal) (rest : List Char)
  | fields (fs : List (String × JVal)) (rest : List Char)

/-- Modelled from the spec: the recursive descent of `cJSON_Parse`,
fuel-indexed to stay structural. -/
def parseStep : Nat → PMode → List Char → Option PRes
  | 0, _, _ => none
  | Nat.succ fuel, PMode.value, s =>
    match skipWs s with
    | [] => none
    | c :: rest =>
      if c = cLBrace then
        match parseStep fuel PMode.fields rest with
        | some (PRes.fields fs r) => some (PRes.value (JVal.obj fs) r)
        | _ => none
      else if c = '[' then
        match parseStep fuel PMode.elems rest with
        | some (PRes.elems vs r) => some (PRes.value (JVal.arr vs) r)
        | _ => none
      else if c = cQuote then
        match parseStrChars rest with
        | some (cs, r) => some (PRes.value (JVal.str (String.mk cs)) r)
        | none => none
      else if c = 't' then
        match rest with
        | 'r' :: 'u' :: 'e' :: r => some (PRes.value (JVal.bool true) r)
        | _ => none
      else if c = 'f' then
        match rest with
        | 'a' :: 'l' :: 's' :: 'e' :: r => some (PRes.value (JVal.bool false) r)
        | _ => none
      else if c = 'n' then
        match rest with
        | 'u' :: 'l' :: 'l' :: r => some (PRes.value JVal.null r)
        | _ => none
      else
        match parseNumber (c :: rest) with
        | some (n, r) => some (PRes.value (JVal.num n) r)
        | none => none
  | Nat.succ fuel, PMode.elems, s =>
    match skipWs s with
    | ']' :: r => some (PRes.elems [] r)
    | s1 =>
      match parseStep fuel PMode.value s1 with
      | some (PRes.value v rest) =>
        match skipWs rest with
        | ',' :: r2 =>
          match parseStep fuel PMode.elems r2 with
          | some (PRes.elems vs r3) => some (PRes.elems (v :: vs) r3)
          | _ => none
        | ']' :: r2 => some (PRes.elems [v] r2)
        | _ => none
      | _ => none
  | Nat.succ fuel, PMode.fields, s =>
    match skipWs s with
    | c :: rest =>
      if c = cRBrace then some (PRes.fields [] rest)
      else if c = cQuote then
        match parseStrChars rest with
        | some (ks, r1) =>
          match skipWs r1 with
          | ':' :: r2 =>
            match parseStep fuel PMode.value r2 with
            | some (PRes.value v r3) =>
              match skipWs r3 with
              | ',' :: r4 =>
                match parseStep fuel PMode.fields r4 with
                | some (PRes.fields fs r5) =>
                  some (PRes.fields ((String.mk ks, v) :: fs) r5)
                | _ => none
              | c5 :: r5 =>
                if c5 = cRBrace then some (PRes.fields [(String.mk ks, v)] r5)
                else none
              | _ => none
            | _ => none
          | _ => none
        | none => none
      else none
    | _ => none

/-- Modelled from the spec: `cJSON_Parse` — parse one JSON value from the
head of the input (cJSON ignores trailing bytes).  The fuel is generous:
the descent makes at most two calls per input byte. -/
def parse_json (s : List Char) : Option JVal :=
  match parseStep (2 * s.length + 8) PMode.value s with
  | some (PRes.value v _) => some v
  | _ => none

/-! ### The Protocol A decoder (process_line, gcli.c lines 158-218) -/

/-- The SSE marker an interesting line must start with. -/
def dataMarker : List Char := ['d', 'a', 't', 'a', ':', ' ']

/-- The part of `process_line` that runs on the parsed envelope: the chain
of lookups with an early `return` (here `(acc, none)`) at every missing or
ill-typed step, and the print-and-append on success. -/
def process_line_root (root : JVal) (acc : String) : String × Option String :=
  match getObjectItem root "candidates" with
  | none => (acc, none)
  | some candidates =>
    if isArray candidates then
      match getArrayItem candidates 0 with
      | none => (acc, none)
      | some candidate =>
        match getObjectItem candidate "content" with
        | none => (acc, none)
        | some content =>
          match getObjectItem content "parts" with
          | none => (acc, none)
          | some parts =>
            if isArray parts then
              match getArrayItem parts 0 with
              | none => (acc, none)
              | some part =>
                match getObjectItem part "text" with
                | some (JVal.str t) => (acc ++ t, some t)
                | _ => (acc, none)
            else (acc, none)
    else (acc, none)

/-- Translation of `process_line`: returns the updated cumulative
`full_response` accumulator and the text emitted to stdout, if any; every
early `return` of the C function is a `(acc, none)` branch. -/
def process_line (line : List Char) (acc : String) : String × Option String :=
  if line.take 6 ≠ dataMarker then (acc, none) else
  match parse_json (line.drop 6) with
  | none => (acc, none)
  | some root => process_line_root root acc

/-- The extraction path `candidates[0].content.parts[0].text` (a string),
as the spec describes it. -/
def extract_candidate_text (root : JVal) : Option String :=
  match getObjectItem root "candidates" with
  | some (JVal.arr cands) =>
    match cands[0]? with
    | some candidate =>
      match getObjectItem candidate "content" with
      | some content =>
        match getObjectItem content "parts" with
        | some (JVal.arr parts) =>
          match parts[0]? with
          | some part =>
            match getObjectItem part "text" with
            | some (JVal.str t) => some t
            | _ => none
          | none => none
        | _ => none
      | none => none
    | none => none
  | _ => none

/-- Fold the Protocol A decoder over a list of complete lines, collecting
the accumulator and the emitted increments. -/
def processLinesA : List (List Char) → String → String × List String
  | [], acc => (acc, [])
  | l :: ls, acc =>
    ((processLinesA ls (process_line l acc).1).1,
      (process_line l acc).2.toList ++ (processLinesA ls (process_line l acc).1).2)

/-- The whole Protocol A pipeline of `send_api_request`: reassemble the
chunks into lines, decode each line, starting from an empty accumulator. -/
def run_stream_a (chunks : List (List Char)) : String × List String :=
  processLinesA (write_memory_stream chunks).1 ""

/-- The first example line of the spec, carrying the text "Hel". -/
def helLine : List Char :=
  String.data "data: \x7b\"candidates\":[\x7b\"content\":\x7b\"parts\":[\x7b\"text\":\"Hel\"\x7d]\x7d\x7d]\x7d"

/-- The second example line of the spec, carrying the text "lo". -/
def loLine : List Char :=
  String.data "data: \x7b\"candidates\":[\x7b\"content\":\x7b\"parts\":[\x7b\"text\":\"lo\"\x7d]\x7d\x7d]\x7d"

theorem process_line_root_extract (root : JVal) (acc : String) :
    process_line_root root acc =
      (match extract_candidate_text root with
        | some t => (acc ++ t, some t)
        | none => (acc, none)) := by
  rcases h1 : getObjectItem root "candidates" with _ | v
  · simp [process_line_root, extract_candidate_text, h1]
  rcases v with _ | b | n | s | xs | fs <;>
    simp [process_line_root, extract_candidate_text, h1, isArray, getArrayItem]
  case arr =>
    rcases h2 : xs[0]? with _ | candidate
    · simp [h2]
    try simp only [h2]
    rcases h3 : getObjectItem candidate "content" with _ | content
    · simp [h3]
    try simp only [h3]
    rcases h4 : getObjectItem content "parts" with _ | parts
    · simp [h4]
    try simp only [h4]
    rcases parts with _ | b2 | n2 | s2 | ps | fs2 <;>
      simp [isArray, getArrayItem]
    case arr =>
      rcases h5 : ps[0]? with _ | part
      · simp [h5]
      try simp only [h5]
      rcases h6 : getObjectItem part "text" with _ | tv
      · simp [h6]
      try simp only [h6]
      rcases tv with _ | b3 | n3 | s3 | xs3 | fs3 <;> simp

theorem process_line_extract (line : List Char) (acc : String) (root : JVal)
    (hm : line.take 6 = dataMarker) (hp : parse_json (line.drop 6) = some root) :
    process_line line acc =
      (match extract_candidate_text root with
        | some t => (acc ++ t, some t)
        | none => (acc, none)) := by
  unfold process_line
  rw [if_neg (by simp [hm]), hp]
  exact process_line_root_extract root acc

set_option maxRecDepth 4000

/-- Claim C5: Protocol A decodes only lines starting with the literal
marker; a marked line whose remainder fails to parse, or parses but lacks
`candidates[0].content.parts[0].text` as a string, is dropped without
touching the accumulator; an extracted text is both emitted and appended;
and the two-line stream of the spec yields the cumulative response "Hello" with
the incremental emissions "Hel", "lo". -/
theorem claim_C5 :
    (∀ (line : List Char) (acc : String),
        line.take 6 ≠ dataMarker → process_line line acc = (acc, none)) ∧
    (∀ (line : List Char) (acc : String),
        line.take 6 = dataMarker → parse_json (line.drop 6) = none →
          process_line line acc = (acc, none)) ∧
    (∀ (line : List Char) (acc : String) (root : JVal),
        line.take 6 = dataMarker → parse_json (line.drop 6) = some root →
          process_line line acc =
            (match extract_candidate_text root with
              | some t => (acc ++ t, some t)
              | none => (acc, none))) ∧
    run_stream_a [helLine ++ '\n' :: (loLine ++ ['\n'])] = ("Hello", ["Hel", "lo"]) := by
  refine ⟨?_, ?_, process_line_extract, ?_⟩
  · intro line acc h
    unfold process_line
    rw [if_pos h]
  · intro line acc hm hp
    unfold process_line
    rw [if_neg (by simp [hm]), hp]
  · decide

/-- Claim C5, witness: a non-marker line and a marker line with unparsable
remainder are both dropped without touching the accumulator. -/
theorem claim_C5_witness :
    process_line ['x'] "abc" = ("abc", none) ∧
      process_line (dataMarker ++ ['z']) "q" = ("q", none) :=
  ⟨claim_C5.1 ['x'] "abc" (by decide),
    claim_C5.2.1 (dataMarker ++ ['z']) "q" (by decide) (by rfl)⟩

/-! ### The Protocol B decoder (process_free_line, gcli.c lines 1221-1343) -/

/-- One visible output action of the free-mode decoder: a plain print, or
the carriage-return repaint `\r%*s\r%s` that blanks `erased` characters and
reprints `s`. -/
inductive FreeEmit where
  | print (s : String)
  | repaint (erased : Nat) (s : String)
deriving DecidableEq

/-- The decoder-visible fields of `AppState`: the location bitmask, its
completion flag, the Fragment Memory `last_free_response_part`, and the
pending code block `final_code`. -/
structure FreeState where
  loc_tile : Nat
  loc_gathered : Bool
  last_free_response_part : Option String
  final_code : Option String
deriving DecidableEq

/-- The fragment-diff step of `process_free_line` (gcli.c lines 1296-1317):
compares the freshly decoded candidate text against the Fragment Memory,
prints only the new suffix when the new text extends the old one, repaints
from scratch when it is shorter than a non-empty old one, and in every case
replaces the Fragment Memory by the new text. -/
def process_free_text (last : Option String) (current : String) :
    List FreeEmit × Option String :=
  if (last.getD "").data.length < current.data.length ∧
      current.data.take (last.getD "").data.length = (last.getD "").data then
    ([FreeEmit.print (String.mk (current.data.drop (last.getD "").data.length))],
      some current)
  else if 0 < (last.getD "").data.length ∧
      current.data.length < (last.getD "").data.length then
    ([FreeEmit.repaint (last.getD "").data.length current], some current)
  else ([], some current)

/-- The literal noise marker that `process_free_line` removes with
`str_replace` before parsing. -/
def immersiveMarker : List Char :=
  String.data "\\\\nhttp://googleusercontent.com/immersive_entry_chip/0\\\\n"

/-- Removal pass of `str_replace` (gcli.c lines 1163-1207) specialised to
the empty replacement used at its only call site; fuel-indexed (the input
length bounds the recursion). -/
def removeMarkerFuel (marker : List Char) : Nat → List Char → List Char
  | 0, s => s
  | Nat.succ fuel, s =>
    match s with
    | [] => []
    | c :: rest =>
      if marker ≠ [] ∧ (c :: rest).take marker.length = marker then
        removeMarkerFuel marker fuel ((c :: rest).drop marker.length)
      else c :: removeMarkerFuel marker fuel rest

/-- `str_replace(orig, rep, "")`: remove every occurrence of `rep`. -/
def str_replace (orig rep : List Char) : List Char :=
  removeMarkerFuel rep orig.length orig

/-- The location/tile side-channel branch of `process_free_line`
(gcli.c lines 1259-1285): bit 0 requests `inner[5][0]`, else bit 1 requests
`inner[5][4]` printed with an `https:` prefix; a satisfied bit is cleared
and bit 2 set; whenever `inner[5]` exists at all, `loc_gathered` is set. -/
def process_free_loc (inner : JVal) (st : FreeState) : List FreeEmit × FreeState :=
  match getArrayItem inner 5 with
  | none => ([], st)
  | some item5 =>
    if st.loc_tile &&& 1 ≠ 0 then
      match getArrayItem item5 0 with
      | some (JVal.str s) =>
        ([FreeEmit.print (s ++ "\n")],
          ⟨(st.loc_tile &&& 4294967294) ||| 4, true,
            st.last_free_response_part, st.final_code⟩)
      | _ =>
        ([], ⟨st.loc_tile, true, st.last_free_response_part, st.final_code⟩)
    else if st.loc_tile &&& 2 ≠ 0 then
      match getArrayItem item5 4 with
      | some (JVal.str s) =>
        ([FreeEmit.print ("https:" ++ s ++ "\n")],
          ⟨(st.loc_tile &&& 4294967293) ||| 4, true,
            st.last_free_response_part, st.final_code⟩)
      | _ =>
        ([], ⟨st.loc_tile, true, st.last_free_response_part, st.final_code⟩)
    else ([], ⟨st.loc_tile, true, st.last_free_response_part, st.final_code⟩)

/-- The generic extraction path of `process_free_line` on the parsed inner
payload: the candidate text at `inner[4][0][1][0]` drives the fragment
diff, and a code block at `inner[4][0][30][0][4]` replaces `final_code`. -/
def process_free_inner (inner : JVal) (st : FreeState) : List FreeEmit × FreeState :=
  if 0 < st.loc_tile then process_free_loc inner st
  else
    match getArrayItem inner 4 with
    | none => ([], st)
    | some item4 =>
      match getArrayItem item4 0 with
      | none => ([], st)
      | some item4_0 =>
        ((match getArrayItem item4_0 1 with
          | none => ([], st.last_free_response_part)
          | some item4_0_1 =>
            match getArrayItem item4_0_1 0 with
            | some (JVal.str t) => process_free_text st.last_free_response_part t
            | _ => ([], st.last_free_response_part)).1,
          ⟨st.loc_tile, st.loc_gathered,
            (match getArrayItem item4_0 1 with
              | none => ([], st.last_free_response_part)
              | some item4_0_1 =>
                match getArrayItem item4_0_1 0 with
                | some (JVal.str t) => process_free_text st.last_free_response_part t
                | _ => ([], st.last_free_response_part)).2,
            (match getArrayItem item4_0 30 with
              | none => st.final_code
              | some item30 =>
                match getArrayItem item30 0 with
                | none => st.final_code
                | some item30_0 =>
                  match getArrayItem item30_0 4 with
                  | some (JVal.str code) => some code
                  | _ => st.final_code)⟩)

/-- Translation of `process_free_line`: strip the noise marker, parse the
outer array, locate the stringified payload at index 2 (its absence flushes
a pending code block), parse it recursively, then run either the location
side-channel or the generic extraction. -/
def process_free_line (line : List Char) (st : FreeState) : List FreeEmit × FreeState :=
  match parse_json (str_replace line immersiveMarker) with
  | none => ([], st)
  | some root =>
    match getArrayItem root 0 with
    | none => ([], st)
    | some wrb =>
      if isArray wrb then
        match getArrayItem wrb 2 with
        | none =>
          match st.final_code with
          | some code =>
            ([FreeEmit.print ("\n\n" ++ code ++ "\n")],
              ⟨st.loc_tile, st.loc_gathered, st.last_free_response_part, none⟩)
          | none => ([], st)
        | some sj =>
          match sj with
          | JVal.str inner_s =>
            match parse_json inner_s.data with
            | none => ([], st)
            | some inner => process_free_inner inner st
          | _ => ([], st)
      else ([], st)

/-- A concrete free-API wire line whose inner payload carries the candidate
text "Hi there". -/
def hiThereLine : List Char :=
  String.data "[[\"wrb.fr\",null,\"[null,null,null,null,[[null,[\\\"Hi there\\\"]]]]\"]]"

/-- Claim C2: when the new candidate text strictly extends the Fragment
Memory, exactly the new suffix is printed; when it is strictly shorter than
a non-empty Fragment Memory, a repaint erases the old length and reprints
the new text; both update the Fragment Memory to the new text.  The
example pair of the spec, "Hi" → "Hi there" and "Hi there" → "Hi" behaves exactly so,
also through the full `process_free_line` on a real wire line. -/
theorem claim_C2 :
    (∀ (F T : String),
        T.data.take F.data.length = F.data → F.data.length < T.data.length →
          process_free_text (some F) T =
            ([FreeEmit.print (String.mk (T.data.drop F.data.length))], some T)) ∧
    (∀ (F T : String),
        0 < F.data.length → T.data.length < F.data.length →
          process_free_text (some F) T =
            ([FreeEmit.repaint F.data.length T], some T)) ∧
    process_free_text (some "Hi") "Hi there" =
      ([FreeEmit.print " there"], some "Hi there") ∧
    process_free_text (some "Hi there") "Hi" =
      ([FreeEmit.repaint 8 "Hi"], some "Hi") ∧
    process_free_line hiThereLine ⟨0, false, some "Hi", none⟩ =
      ([FreeEmit.print " there"], ⟨0, false, some "Hi there", none⟩) := by
  refine ⟨?_, ?_, by decide, by decide, by decide⟩
  · intro F T h1 h2
    unfold process_free_text
    rw [if_pos ⟨by simpa using h2, by simpa using h1⟩]
    rfl
  · intro F T h1 h2
    unfold process_free_text
    have hne : ¬ ((((some F).getD "").data.length < T.data.length) ∧
        T.data.take ((some F).getD "").data.length = ((some F).getD "").data) := by
      simp only [Option.getD_some]
      rintro ⟨hlt, _⟩
      omega
    rw [if_neg hne, if_pos ⟨by simpa using h1, by simpa using h2⟩]
    rfl

/-- Claim C2, witness: the example fragments of the spec, via the two
universally quantified branches of the theorem. -/
theorem claim_C2_witness :
    process_free_text (some "Hi") "Hi there" =
        ([FreeEmit.print (String.mk ("Hi there".data.drop "Hi".data.length))],
          some "Hi there") ∧
      process_free_text (some "Hi there") "Hi" =
        ([FreeEmit.repaint "Hi there".data.length "Hi"], some "Hi") :=
  ⟨claim_C2.1 "Hi" "Hi there" (by decide) (by decide),
    claim_C2.2.1 "Hi there" "Hi" (by decide) (by decide)⟩

/-- Claim C9: when the new candidate text neither strictly extends the
Fragment Memory nor is strictly shorter, nothing is printed at all, yet the
Fragment Memory is still replaced by the new text. -/
theorem claim_C9 :
    (∀ (F T : String),
        ¬ (F.data.length < T.data.length ∧ T.data.take F.data.length = F.data) →
        ¬ T.data.length < F.data.length →
          process_free_text (some F) T = ([], some T)) ∧
    process_free_text (some "ab") "xy" = ([], some "xy") ∧
    process_free_text (some "ab") "xyz" = ([], some "xyz") := by
  refine ⟨?_, by decide, by decide⟩
  intro F T h1 h2
  unfold process_free_text
  have hne2 : ¬ ((0 < ((some F).getD "").data.length) ∧
      T.data.length < ((some F).getD "").data.length) := by
    simp only [Option.getD_some]
    rintro ⟨_, hlt⟩
    exact h2 hlt
  rw [if_neg (by simpa using h1), if_neg hne2]

/-- Claim C9, witness: same length but different content ("ab" → "xy"), and
longer without the common prefix ("ab" → "xyz"). -/
theorem claim_C9_witness :
    process_free_text (some "ab") "xy" = ([], some "xy") ∧
      process_free_text (some "ab") "xyz" = ([], some "xyz") :=
  ⟨claim_C9.1 "ab" "xy" (by decide) (by decide),
    claim_C9.1 "ab" "xyz" (by decide) (by decide)⟩

/-! ### The retrying transports
(send_api_request, gcli.c lines 2142-2231; send_free_api_request, 1605-1704)

Both loops run `for (int i = 0; i < max_retries; i++)` with
`max_retries = 3`, sleep 2 seconds on a 503 unless the attempt was the last
(`i < max_retries - 1`), and break on anything else.  A transport is
modelled as the outcome of each attempt, indexed by the attempt number. -/

/-- One attempt of the official transport as observed by
`send_api_request`: the HTTP status returned by
`perform_api_curl_request` (negative sentinel for a curl-level failure) and
the text the stream decoder accumulated into `chunk.full_response` during
that attempt (the buffers are reset before every attempt). -/
structure ARes where
  code : Int
  text : String

/-- Result of the `send_api_request` retry loop: attempts made, the sleeps
performed (in seconds, in order), the returned flag, the response handed to
`*full_response_out` (NULL on failure), and the last HTTP code. -/
structure ApiOutcome where
  attempts : Nat
  sleeps : List Nat
  success : Bool
  response : Option String
  lastCode : Int
deriving DecidableEq

/-- `int max_retries = 3;` in both send functions. -/
def max_retries : Nat := 3

/-- The retry loop of `send_api_request` (fuel = remaining iterations,
`i` = current index, `s` = sleeps so far). -/
def apiRetryGo (t : Nat → ARes) : Nat → Nat → List Nat → ApiOutcome
  | 0, i, s => ⟨i, s, false, none, 0⟩
  | Nat.succ fuel, i, s =>
    if (t i).code = 200 then ⟨i + 1, s, true, some (t i).text, (t i).code⟩
    else if (t i).code = 503 then
      if i < max_retries - 1 then apiRetryGo t fuel (i + 1) (s ++ [2])
      else ⟨i + 1, s, false, none, (t i).code⟩
    else ⟨i + 1, s, false, none, (t i).code⟩

/-- `send_api_request` for a given per-attempt transport behaviour. -/
def send_api_request_model (t : Nat → ARes) : ApiOutcome :=
  apiRetryGo t max_retries 0 []

/-- The curl result codes distinguished by `send_free_api_request`. -/
inductive CurlRes where
  | ok
  | writeError
  | otherError
deriving DecidableEq

/-- One attempt of the free transport: curl result, HTTP status, and the
value of the persistent `loc_gathered` flag right after the attempt. -/
structure FRes where
  res : CurlRes
  code : Int
  locGathered : Bool
deriving DecidableEq

/-- The success test of `send_free_api_request` (gcli.c lines 1672 and
1697): normal completion with HTTP 200, or a write-callback abort with the
side-channel completion flag set. -/
def freeAttemptSuccess (r : FRes) : Bool :=
  (r.res == CurlRes.ok && r.code == 200) ||
    (r.res == CurlRes.writeError && r.locGathered)

/-- Result of the `send_free_api_request` retry loop. -/
structure FreeOutcome where
  attempts : Nat
  sleeps : List Nat
  success : Bool
  lastRes : FRes
deriving DecidableEq

/-- The retry loop of `send_free_api_request`; returns attempts, sleeps,
and the observation of the last attempt (whose re-test after the loop decides
the returned flag). -/
def freeRetryGo (t : Nat → FRes) : Nat → Nat → List Nat → Nat × List Nat × FRes
  | 0, i, s => (i, s, t (i - 1))
  | Nat.succ fuel, i, s =>
    if freeAttemptSuccess (t i) then (i + 1, s, t i)
    else if (t i).code = 503 then
      if i < max_retries - 1 then freeRetryGo t fuel (i + 1) (s ++ [2])
      else (i + 1, s, t i)
    else (i + 1, s, t i)

/-- `send_free_api_request` for a given per-attempt transport behaviour:
the final return re-evaluates the success test on the last attempt. -/
def send_free_api_request_model (t : Nat → FRes) : FreeOutcome :=
  ⟨(freeRetryGo t max_retries 0 []).1, (freeRetryGo t max_retries 0 []).2.1,
    freeAttemptSuccess (freeRetryGo t max_retries 0 []).2.2,
    (freeRetryGo t max_retries 0 []).2.2⟩

/-- The `send_api_request` retry loop, unrolled at its literal bound. -/
theorem send_api_request_model_eq (t : Nat → ARes) :
    send_api_request_model t =
      (if (t 0).code = 200 then ⟨1, [], true, some (t 0).text, (t 0).code⟩
       else if (t 0).code = 503 then
         (if (t 1).code = 200 then ⟨2, [2], true, some (t 1).text, (t 1).code⟩
          else if (t 1).code = 503 then
            (if (t 2).code = 200 then
              ⟨3, [2, 2], true, some (t 2).text, (t 2).code⟩
             else ⟨3, [2, 2], false, none, (t 2).code⟩)
          else ⟨2, [2], false, none, (t 1).code⟩)
       else ⟨1, [], false, none, (t 0).code⟩) := by
  show apiRetryGo t 3 0 [] = _
  rw [show (3 : Nat) = Nat.succ 2 from rfl]
  rw [apiRetryGo]
  rw [show (2 : Nat) = Nat.succ 1 from rfl]
  rw [apiRetryGo]
  rw [show (1 : Nat) = Nat.succ 0 from rfl]
  rw [apiRetryGo]
  norm_num [max_retries]

/-- The `send_free_api_request` retry loop, unrolled at its literal bound. -/
theorem send_free_api_request_model_eq (t : Nat → FRes) :
    send_free_api_request_model t =
      (if freeAttemptSuccess (t 0) then ⟨1, [], true, t 0⟩
       else if (t 0).code = 503 then
         (if freeAttemptSuccess (t 1) then ⟨2, [2], true, t 1⟩
          else if (t 1).code = 503 then ⟨3, [2, 2], freeAttemptSuccess (t 2), t 2⟩
          else ⟨2, [2], false, t 1⟩)
       else ⟨1, [], false, t 0⟩) := by
  unfold send_free_api_request_model
  rw [show max_retries = Nat.succ 2 from rfl]
  rw [freeRetryGo]
  rw [show (2 : Nat) = Nat.succ 1 from rfl]
  rw [freeRetryGo]
  rw [show (1 : Nat) = Nat.succ 0 from rfl]
  rw [freeRetryGo]
  norm_num [max_retries]
  split_ifs <;> simp [*]

theorem freeRetryGo_last (t : Nat → FRes) (fuel : Nat) :
    ∀ (i : Nat) (s : List Nat),
      (freeRetryGo t fuel i s).2.2 = t ((freeRetryGo t fuel i s).1 - 1) := by
  induction fuel with
  | zero => intro i s; rfl
  | succ fuel ih =>
    intro i s
    unfold freeRetryGo
    split_ifs with h1 h2 h3
    · simp
    · exact ih (i + 1) (s ++ [2])
    · simp
    · simp

/-- Claim C3: both retry loops make at most 3 attempts, sleep a fixed 2
seconds before every retry and never after the final attempt, retry only on
HTTP 503, fail immediately on any other non-success status, and in the
503/503/success scenario succeed on the third attempt with the decoded
text of that attempt, after exactly two delays. -/
theorem claim_C3 :
    (∀ t : Nat → ARes, (send_api_request_model t).attempts ≤ 3) ∧
    (∀ t : Nat → ARes,
        (send_api_request_model t).sleeps =
          List.replicate ((send_api_request_model t).attempts - 1) 2) ∧
    (∀ t : Nat → ARes, ∀ j, j + 1 < (send_api_request_model t).attempts →
        (t j).code = 503) ∧
    (∀ t : Nat → ARes, (t 0).code = 503 → (t 1).code = 503 → (t 2).code = 200 →
        send_api_request_model t = ⟨3, [2, 2], true, some (t 2).text, 200⟩) ∧
    (∀ t : Nat → ARes, (t 0).code ≠ 200 → (t 0).code ≠ 503 →
        send_api_request_model t = ⟨1, [], false, none, (t 0).code⟩) ∧
    (∀ t : Nat → FRes, (send_free_api_request_model t).attempts ≤ 3) ∧
    (∀ t : Nat → FRes,
        (send_free_api_request_model t).sleeps =
          List.replicate ((send_free_api_request_model t).attempts - 1) 2) ∧
    (∀ t : Nat → FRes,
        t 0 = ⟨CurlRes.ok, 503, false⟩ → t 1 = ⟨CurlRes.ok, 503, false⟩ →
        t 2 = ⟨CurlRes.ok, 200, false⟩ →
          send_free_api_request_model t =
            ⟨3, [2, 2], true, ⟨CurlRes.ok, 200, false⟩⟩) ∧
    (∀ t : Nat → FRes, freeAttemptSuccess (t 0) = false → (t 0).code ≠ 503 →
        (send_free_api_request_model t).attempts = 1 ∧
          (send_free_api_request_model t).success = false) := by
  refine ⟨?_, ?_, ?_, ?_, ?_, ?_, ?_, ?_, ?_⟩
  · intro t
    rw [send_api_request_model_eq t]
    split_ifs <;> simp
  · intro t
    rw [send_api_request_model_eq t]
    split_ifs <;> rfl
  · intro t j
    rw [send_api_request_model_eq t]
    split_ifs with h0 h0b h1 h1b h2 <;> intro hj <;> simp at hj <;>
      first
        | omega
        | (have h9 : j = 0 := by omega
           subst h9
           assumption)
        | (have h9 : j = 0 ∨ j = 1 := by omega
           rcases h9 with h9 | h9 <;> subst h9 <;> assumption)
  · intro t h0 h1 h2
    rw [send_api_request_model_eq t]
    simp [h0, h1, h2]
  · intro t h200 h503
    rw [send_api_request_model_eq t]
    simp [h200, h503]
  · intro t
    rw [send_free_api_request_model_eq t]
    split_ifs <;> simp
  · intro t
    rw [send_free_api_request_model_eq t]
    split_ifs <;> rfl
  · intro t h0 h1 h2
    rw [send_free_api_request_model_eq t]
    simp [h0, h1, h2, freeAttemptSuccess]
  · intro t hs h503
    rw [send_free_api_request_model_eq t]
    simp [hs, h503]

/-- Claim C3, witness: a transport that returns 503 twice then succeeds,
and one that fails permanently at once. -/
theorem claim_C3_witness :
    send_api_request_model
        (fun i => if i = 2 then ⟨200, "ok"⟩ else ⟨503, ""⟩) =
      ⟨3, [2, 2], true, some "ok", 200⟩ ∧
      send_api_request_model (fun _ => ⟨400, "e"⟩) =
        ⟨1, [], false, none, 400⟩ :=
  ⟨claim_C3.2.2.2.1 (fun i => if i = 2 then ⟨200, "ok"⟩ else ⟨503, ""⟩)
      (by decide) (by decide) (by decide),
    claim_C3.2.2.2.2.1 (fun _ => ⟨400, "e"⟩) (by decide) (by decide)⟩

/-- Claim C7: the terminal verdict of the free transport is the success test of
the last attempt: normal completion with HTTP 200, or an aborted transfer
with the side-channel completion flag set; an aborted transfer without the
flag is not a success. -/
theorem claim_C7 :
    (∀ t : Nat → FRes,
        (send_free_api_request_model t).success = true ↔
          (((t ((send_free_api_request_model t).attempts - 1)).res = CurlRes.ok ∧
              (t ((send_free_api_request_model t).attempts - 1)).code = 200) ∨
            ((t ((send_free_api_request_model t).attempts - 1)).res =
                CurlRes.writeError ∧
              (t ((send_free_api_request_model t).attempts - 1)).locGathered =
                true))) ∧
    (send_free_api_request_model
        (fun _ => ⟨CurlRes.writeError, 0, true⟩)).success = true ∧
    (send_free_api_request_model
        (fun _ => ⟨CurlRes.writeError, 0, false⟩)).success = false ∧
    (send_free_api_request_model
        (fun _ => ⟨CurlRes.writeError, 0, true⟩)).attempts = 1 := by
  refine ⟨?_, by decide, by decide, by decide⟩
  intro t
  have h := freeRetryGo_last t max_retries 0 []
  simp only [send_free_api_request_model]
  rw [h]
  simp [freeAttemptSuccess, Bool.or_eq_true, Bool.and_eq_true, beq_iff_eq]

/-! ### The history store (gcli.c data structures and lines 3325-3435)

`Part`, `Content`, `History` translate the C structs; a NULL char pointer
is `none`.  `add_content_to_history` deep-copies the new turn, populating
only the fields of the active variant; the rollback in `generate_session`
(lines 1128-1131) drops the last turn. -/

/-- `PartType`: `PART_TYPE_TEXT` / `PART_TYPE_FILE`. -/
inductive PartType where
  | text
  | file
deriving DecidableEq

/-- `Part`: the tagged union of a text part and a file part. -/
structure Part where
  type : PartType
  text : Option String
  mime_type : Option String
  base64_data : Option String
  filename : Option String
deriving DecidableEq

/-- `Content`: one turn, a role and its parts. -/
structure Content where
  role : String
  parts : List Part
deriving DecidableEq

/-- `History`: the ordered turn sequence. -/
abbrev History := List Content

/-- The deep copy one part undergoes in `add_content_to_history`
(gcli.c lines 3350-3363): only the fields of the active variant are kept. -/
def copy_part (p : Part) : Part :=
  match p.type with
  | PartType.text => ⟨PartType.text, p.text, none, none, none⟩
  | PartType.file => ⟨PartType.file, none, p.mime_type, p.base64_data, p.filename⟩

/-- `add_content_to_history`: append a deep-copied turn. -/
def add_content_to_history (h : History) (role : String) (parts : List Part) :
    History :=
  h ++ [⟨role, parts.map copy_part⟩]

/-- The rollback of `generate_session` on a failed request
(`num_contents--; free_content(last)`): drop the last turn. -/
def rollback_last_turn (h : History) : History := h.dropLast

/-- A text part as built for prompts and model responses. -/
def textPart (s : String) : Part := ⟨PartType.text, some s, none, none, none⟩

/-- One official-API round of `generate_session` (gcli.c lines 1113-1132):
the user turn is appended speculatively before the request; on success the
model turn is appended, on failure the speculative turn is rolled back. -/
def session_round (h : History) (userParts : List Part) (outcome : Option String) :
    History :=
  match outcome with
  | some resp =>
    add_content_to_history (add_content_to_history h "user" userParts) "model"
      [textPart resp]
  | none => rollback_last_turn (add_content_to_history h "user" userParts)

/-- Claim C4: a speculative user turn followed by a failing request leaves
the History exactly as before the turn was appended; a successful round
appends the user and model turns. -/
theorem claim_C4 :
    (∀ (h : History) (userParts : List Part),
        session_round h userParts none = h) ∧
    (∀ (h : History) (userParts : List Part) (resp : String),
        session_round h userParts (some resp) =
          h ++ [⟨"user", userParts.map copy_part⟩, ⟨"model", [textPart resp]⟩]) := by
  constructor
  · intro h userParts
    simp [session_round, rollback_last_turn, add_content_to_history]
  · intro h userParts resp
    simp [session_round, add_content_to_history, copy_part, textPart]

/-! ### The tagged-union invariant (claim C8) -/

/-- The invariant of §3 of the spec: a text part carries no file fields, a
file part carries no inline text. -/
def part_inv (p : Part) : Prop :=
  match p.type with
  | PartType.text => p.mime_type = none ∧ p.base64_data = none ∧ p.filename = none
  | PartType.file => p.text = none

/-- Every part of every turn satisfies `part_inv`. -/
def history_inv (h : History) : Prop :=
  ∀ c ∈ h, ∀ p ∈ c.parts, part_inv p

theorem copy_part_inv (p : Part) : part_inv (copy_part p) := by
  rcases p with ⟨ty, tx, m, b, f⟩
  cases ty <;> simp [copy_part, part_inv]

theorem add_content_inv (h : History) (role : String) (parts : List Part)
    (hh : history_inv h) : history_inv (add_content_to_history h role parts) := by
  intro c hc p hp
  rcases List.mem_append.mp hc with hc | hc
  · exact hh c hc p hp
  · simp only [List.mem_singleton] at hc
    subst hc
    simp only [List.mem_map] at hp
    obtain ⟨q, hq, rfl⟩ := hp
    exact copy_part_inv q

/-! ### Payload builder and history loader (claims C6 and C8)

`build_request_json` (gcli.c lines 2950-2977) serializes the history under
the key "contents"; `load_history_from_file` (lines 3249-3293) re-parses
that array, re-appending every well-shaped turn through
`add_content_to_history`. -/

/-- Serialization of one part in `build_request_json`: a text part becomes
an object with its "text" field (omitted when the pointer is NULL), a file
part becomes `inlineData` with `mimeType` and `data` (a NULL string would
be undefined behaviour in cJSON; the omission models it and is excluded by
the well-formedness hypothesis of claim C6). -/
def serialize_part (p : Part) : JVal :=
  match p.type with
  | PartType.text =>
    JVal.obj (match p.text with
      | some t => [("text", JVal.str t)]
      | none => [])
  | PartType.file =>
    JVal.obj [("inlineData", JVal.obj
      ((match p.mime_type with
        | some m => [("mimeType", JVal.str m)]
        | none => []) ++
      (match p.base64_data with
        | some d => [("data", JVal.str d)]
        | none => [])))]

/-- Serialization of one turn: role plus parts. -/
def serialize_content (c : Content) : JVal :=
  JVal.obj [("role", JVal.str c.role),
    ("parts", JVal.arr (c.parts.map serialize_part))]

/-- The "contents" array of `build_request_json`. -/
def build_contents_json (h : History) : JVal :=
  JVal.arr (h.map serialize_content)

/-- A `calloc`-zeroed part, as left by the loader for an unrecognized
part object: type 0 (= text), all pointers NULL. -/
def zeroPart : Part := ⟨PartType.text, none, none, none, none⟩

/-- `load_history_from_file`, one part (gcli.c lines 3264-3282): a string
"text" field makes a text part; otherwise a well-typed `inlineData` makes a
file part; anything else leaves the zeroed part. -/
def load_part (j : JVal) : Part :=
  match getObjectItem j "text" with
  | some (JVal.str t) => ⟨PartType.text, some t, none, none, none⟩
  | _ =>
    match getObjectItem j "inlineData" with
    | some idata =>
      match getObjectItem idata "mimeType", getObjectItem idata "data" with
      | some (JVal.str m), some (JVal.str d) =>
        ⟨PartType.file, none, some m, some d, none⟩
      | _, _ => zeroPart
    | none => zeroPart

/-- One iteration of the turn loop of the loader: a turn needs a string role and
an array of parts, otherwise it is skipped (`continue`); accepted turns go
through `add_content_to_history`. -/
def load_content_step (h : History) (item : JVal) : History :=
  match getObjectItem item "role", getObjectItem item "parts" with
  | some (JVal.str role), some (JVal.arr parts) =>
    add_content_to_history h role (parts.map load_part)
  | _, _ => h

/-- `load_history_from_file` on an already-parsed document: clear the
history, then fold the loader over the "contents" array. -/
def load_history (root : JVal) : History :=
  match getObjectItem root "contents" with
  | some (JVal.arr items) => items.foldl load_content_step []
  | _ => []

theorem load_content_step_inv (h : History) (item : JVal)
    (hh : history_inv h) : history_inv (load_content_step h item) := by
  unfold load_content_step
  split
  · exact add_content_inv _ _ _ hh
  · exact hh

theorem load_fold_inv (items : List JVal) :
    ∀ h0 : History, history_inv h0 →
      history_inv (items.foldl load_content_step h0) := by
  induction items with
  | nil => intro h0 hh; exact hh
  | cons it items ih =>
    intro h0 hh
    exact ih _ (load_content_step_inv h0 it hh)

/-- Claim C8: the tagged-union invariant is established by the deep copy of
`add_content_to_history` and preserved by append, rollback, and loading a
history document. -/
theorem claim_C8 :
    (∀ (h : History) (role : String) (parts : List Part),
        history_inv h → history_inv (add_content_to_history h role parts)) ∧
    (∀ h : History, history_inv h → history_inv (rollback_last_turn h)) ∧
    (∀ root : JVal, history_inv (load_history root)) := by
  refine ⟨add_content_inv, ?_, ?_⟩
  · intro h hh c hc p hp
    exact hh c (List.dropLast_subset h hc) p hp
  · intro root
    unfold load_history
    split
    · exact load_fold_inv _ [] (by intro c hc; cases hc)
    · intro c hc; cases hc

/-- Claim C8, witness: appending a turn whose raw part illegally carries
both inline text and a mime type still yields an invariant-satisfying
History — the deep copy normalizes it. -/
theorem claim_C8_witness :
    history_inv
      (add_content_to_history [] "user"
        [⟨PartType.text, some "hi", some "text/plain", none, none⟩]) :=
  claim_C8.1 [] "user" [⟨PartType.text, some "hi", some "text/plain", none, none⟩]
    (by intro c hc; cases hc)

/-! ### The wire round-trip (claim C6) -/

/-- The fields claim C6 compares: type, text, mime type, base64 payload
(the original filename is deliberately not serialized by
`build_request_json`, so it is not part of the comparison). -/
def part_core (p : Part) : PartType × Option String × Option String × Option String :=
  (p.type, p.text, p.mime_type, p.base64_data)

/-- A turn up to the compared fields. -/
def content_core (c : Content) :
    String × List (PartType × Option String × Option String × Option String) :=
  (c.role, c.parts.map part_core)

/-- A well-formed part: a text part with no file fields, or a file part
with both file strings present and no inline text. -/
def wf_part (p : Part) : Prop :=
  (p.type = PartType.text ∧ p.mime_type = none ∧ p.base64_data = none) ∨
    (p.type = PartType.file ∧ p.text = none ∧
      p.mime_type.isSome = true ∧ p.base64_data.isSome = true)

instance (p : Part) : Decidable (wf_part p) := by
  unfold wf_part
  infer_instance

theorem part_roundtrip (p : Part) (hp : wf_part p) :
    part_core (copy_part (load_part (serialize_part p))) = part_core p := by
  rcases p with ⟨ty, tx, mi, b64, fn⟩
  rcases hp with ⟨ht, hm, hb⟩ | ⟨ht, htx, hm, hb⟩
  · simp only [] at ht hm hb
    subst ht
    subst hm
    subst hb
    rcases tx with _ | t <;>
      simp [serialize_part, load_part, getObjectItem, lookupField, copy_part,
        part_core, zeroPart]
  · simp only [] at ht htx hm hb
    subst ht
    subst htx
    rcases mi with _ | m
    · cases hm
    rcases b64 with _ | d
    · cases hb
    simp [serialize_part, load_part, getObjectItem, lookupField, copy_part,
      part_core]

theorem load_fold_serialized (h : History) :
    ∀ h0 : History, (∀ c ∈ h, ∀ p ∈ c.parts, wf_part p) →
      ((h.map serialize_content).foldl load_content_step h0).map content_core =
        h0.map content_core ++ h.map content_core := by
  induction h with
  | nil => intro h0 _; simp
  | cons c h ih =>
    intro h0 hwf
    simp only [List.map_cons, List.foldl_cons]
    have hstep : load_content_step h0 (serialize_content c) =
        add_content_to_history h0 c.role
          ((c.parts.map serialize_part).map load_part) := by
      simp [load_content_step, serialize_content, getObjectItem, lookupField]
    rw [hstep,
      ih (add_content_to_history h0 c.role ((c.parts.map serialize_part).map load_part))
        (fun c' hc' => hwf c' (List.mem_cons_of_mem _ hc'))]
    have hcc : content_core
        ⟨c.role, (((c.parts.map serialize_part).map load_part).map copy_part)⟩ =
          content_core c := by
      unfold content_core
      simp only [List.map_map]
      refine congrArg (Prod.mk c.role) ?_
      apply List.map_congr_left
      intro p hp
      exact part_roundtrip p (hwf c (List.mem_cons_self c h) p hp)
    simp only [add_content_to_history, List.map_append, List.map_cons,
      List.map_nil, List.append_assoc, List.singleton_append, List.cons_append,
      List.nil_append]
    rw [hcc]

/-- Claim C6: serializing a History with the JSON structure of the Protocol A
payload builder and re-parsing it with the history loader reconstructs a
History of the same length whose parts agree on type, text, mime type and
base64 payload, provided every part is well-formed. -/
theorem claim_C6 :
    ∀ h : History,
      (∀ c ∈ h, ∀ p ∈ c.parts, wf_part p) →
        (load_history (JVal.obj [("contents", build_contents_json h)])).map
            content_core =
          h.map content_core := by
  intro h hwf
  have hroot : load_history (JVal.obj [("contents", build_contents_json h)]) =
      (h.map serialize_content).foldl load_content_step [] := by
    simp [load_history, getObjectItem, lookupField, build_contents_json]
  rw [hroot, load_fold_serialized h [] hwf]
  simp

/-- The 3-turn round-trip example of the spec: a text turn, a file turn, and a
mixed turn. -/
def roundTripHistory : History :=
  [⟨"user", [textPart "hello"]⟩,
   ⟨"model", [⟨PartType.file, none, some "image/png", some "QUJD", some "a.png"⟩]⟩,
   ⟨"user", [textPart "mix", ⟨PartType.file, none, some "text/plain", some "RA==", none⟩]⟩]

/-- Claim C6, witness: the 3-turn example history of the spec round-trips
on the compared fields. -/
theorem claim_C6_witness :
    (∀ c ∈ roundTripHistory, ∀ p ∈ c.parts, wf_part p) ∧
      (load_history
          (JVal.obj [("contents", build_contents_json roundTripHistory)])).map
          content_core =
        roundTripHistory.map content_core :=
  ⟨by decide, claim_C6 roundTripHistory (by decide)⟩

/-! ### The free-mode context cap (claim C10, gcli.c lines 1034-1091) -/

/-- `MAX_FREE_MODE_CONTEXT_SIZE` (gcli.c line 62). -/
def MAX_FREE_MODE_CONTEXT_SIZE : Nat := 102400

/-- `history_len` of gcli.c lines 1049-1054: the length of the text of the
first part of each turn, when that part exists and its text is non-NULL. -/
def free_history_len (h : History) : Nat :=
  (h.map (fun c =>
    match c.parts with
    | [] => 0
    | p :: _ =>
      match p.text with
      | some t => t.data.length
      | none => 0)).sum

/-- The attachment contribution to `current_turn_len`
(gcli.c lines 1036-1041). -/
def attached_text_len (attached : List Part) : Nat :=
  (attached.map (fun p =>
    match p.text with
    | some t => t.data.length
    | none => 0)).sum

/-- `current_turn_len` (gcli.c lines 1036-1042): attachment texts plus the
prompt plus the terminating NUL byte. -/
def current_turn_len (attached : List Part) (p : String) : Nat :=
  attached_text_len attached + p.data.length + 1

/-- Whether the free-mode turn issues a request, and the prompt it sends. -/
inductive FreeTurnResult where
  | blocked
  | requested (prompt : String)
deriving DecidableEq

/-- The free-mode gate of `generate_session` (gcli.c lines 1049-1081): when
the history and turn lengths exceed the cap, no request is made, the
history is untouched and the pending attachments are freed; otherwise the
attachments are concatenated with the prompt and the request proceeds
(attachments are freed in this path too). -/
def free_mode_turn_gate (h : History) (attached : List Part) (p : String) :
    FreeTurnResult × History × List Part :=
  if free_history_len h + current_turn_len attached p > MAX_FREE_MODE_CONTEXT_SIZE then
    (FreeTurnResult.blocked, h, [])
  else
    (FreeTurnResult.requested
        (String.mk ((attached.map (fun q => (q.text.getD "").data)).flatten ++ p.data)),
      h, [])

/-- A pending attachment holding a text exactly as long as the cap. -/
def hugeAttachment : Part :=
  textPart (String.mk (List.replicate MAX_FREE_MODE_CONTEXT_SIZE 'a'))

/-- Claim C10, counterexample.  With an empty History and a one-byte
prompt, the sum the claim speaks of — first text part of every History
turn plus the prompt — is 1, far under the cap, yet the gate blocks the
request: the cap check also counts the text of the pending attachments (and one
NUL byte), which the claim omits. -/
theorem claim_C10_counterexample :
    free_history_len [] + "x".data.length ≤ MAX_FREE_MODE_CONTEXT_SIZE ∧
      free_mode_turn_gate [] [hugeAttachment] "x" = (FreeTurnResult.blocked, [], []) := by
  constructor
  · simp [free_history_len, MAX_FREE_MODE_CONTEXT_SIZE]
  · have hlen : attached_text_len [hugeAttachment] = MAX_FREE_MODE_CONTEXT_SIZE := by
      simp [attached_text_len, hugeAttachment, textPart]
    unfold free_mode_turn_gate
    rw [if_pos]
    rw [current_turn_len, hlen]
    simp [free_history_len, MAX_FREE_MODE_CONTEXT_SIZE]

/-- Claim C10, amended: the gate blocks exactly when the first-text-part
history total, plus the attachment text total, plus the prompt length,
plus one (the NUL byte of the assembled prompt buffer) exceeds 102400
bytes; blocked turns leave the History unchanged, discard the pending
attachments and issue no request, and under that bound the request proceeds
with the concatenated prompt. -/
theorem claim_C10_amended :
    (∀ (h : History) (attached : List Part) (p : String),
        free_history_len h + attached_text_len attached + p.data.length + 1 >
            MAX_FREE_MODE_CONTEXT_SIZE →
          free_mode_turn_gate h attached p = (FreeTurnResult.blocked, h, [])) ∧
    (∀ (h : History) (attached : List Part) (p : String),
        free_history_len h + attached_text_len attached + p.data.length + 1 ≤
            MAX_FREE_MODE_CONTEXT_SIZE →
          free_mode_turn_gate h attached p =
            (FreeTurnResult.requested
                (String.mk
                  ((attached.map (fun q => (q.text.getD "").data)).flatten ++ p.data)),
              h, [])) := by
  constructor
  · intro h attached p hgt
    unfold free_mode_turn_gate current_turn_len
    rw [if_pos (by omega)]
  · intro h attached p hle
    unfold free_mode_turn_gate current_turn_len
    rw [if_neg (by omega)]

/-- Claim C10, witness: an over-cap turn is blocked with the history kept
and the attachments dropped; a small turn goes through. -/
theorem claim_C10_witness :
    free_mode_turn_gate [] [hugeAttachment] "hi" = (FreeTurnResult.blocked, [], []) ∧
      free_mode_turn_gate [] [] "hi" =
        (FreeTurnResult.requested
            (String.mk ((([] : List Part).map (fun q => (q.text.getD "").data)).flatten ++
              "hi".data)),
          [], []) :=
  ⟨claim_C10_amended.1 [] [hugeAttachment] "hi"
      (by
        have hlen : attached_text_len [hugeAttachment] = MAX_FREE_MODE_CONTEXT_SIZE := by
          simp [attached_text_len, hugeAttachment, textPart]
        rw [hlen]
        simp [free_history_len, MAX_FREE_MODE_CONTEXT_SIZE]),
    claim_C10_amended.2 [] [] "hi" (by decide)⟩

end Gcli
